import Mathlib

/-!
Verification of the NCSF core (SDATStuff): shallow embedding of the
portable-file (PSF/NCSF) codec, the tag-block parser, the duration
estimation engine's pass/tag logic, and the SSEQ sub-file reader.

Byte buffers are `List Nat` (each element a byte value 0–255); multi-byte
integers are little-endian; C++ `uint32_t` arithmetic is `Nat` with explicit
`% 2^32`; fallible operations return `Except PSFError`.
-/

namespace NCSF

/-! ## Byte-level primitives -/

/-- Little-endian 32-bit read at offset `off` of a byte buffer
(`ReadLE<uint32_t>`; out-of-range bytes read as 0, reads are only performed
at offsets guarded by the callers' size checks). -/
def ReadLE32At (data : List Nat) (off : Nat) : Nat :=
  data.getD off 0 + 2^8 * data.getD (off + 1) 0 +
    2^16 * data.getD (off + 2) 0 + 2^24 * data.getD (off + 3) 0

/-- Little-endian 16-bit read at offset `off` of a byte buffer. -/
def ReadLE16At (data : List Nat) (off : Nat) : Nat :=
  data.getD off 0 + 2^8 * data.getD (off + 1) 0

/-- Little-endian 32-bit write (`WriteLE<uint32_t>`): the four bytes of
`n mod 2^32`, least significant first. -/
def WriteLE32 (n : Nat) : List Nat :=
  [n % 2^8, n / 2^8 % 2^8, n / 2^16 % 2^8, n / 2^24 % 2^8]

/-- The 5 marker bytes of the tag block, ASCII `[TAG]`. -/
def TagMarker : List Nat := [91, 84, 65, 71, 93]

/-- ASCII bytes of the tag name `length`. -/
def lengthName : List Nat := [108, 101, 110, 103, 116, 104]

/-- ASCII bytes of the tag name `fade`. -/
def fadeName : List Nat := [102, 97, 100, 101]

/-- Modelled from the spec (§4.2, `PseudoReadFile::GetNextOffset`, whose
header is not under `src/`): search for the first occurrence of the byte
pattern `pat` in the suffix `s`, where `i` is the buffer offset of the head
of `s`; returns the offset of the first match, or `none`. -/
def GetNextOffsetGo (pat : List Nat) : List Nat → Nat → Option Nat
  | [], i => if pat = [] then some i else none
  | c :: rest, i =>
    if ((c :: rest).take pat.length) = pat then some i
    else GetNextOffsetGo pat rest (i + 1)

/-- Modelled from the spec (§4.2): `find next offset of byte pattern P at or
after position K`; `none` is the not-found sentinel (the C++ returns -1). -/
def GetNextOffset (data : List Nat) (startPos : Nat) (pat : List Nat) : Option Nat :=
  GetNextOffsetGo pat (data.drop startPos) startPos

/-! ## Whitespace trimming (`NCSF.cpp`) -/

/-- `IsWhitespace`: a byte is whitespace iff it lies in `0x01 .. 0x20`. -/
def IsWhitespace (b : Nat) : Bool := 1 ≤ b ∧ b ≤ 32

/-- `LeftTrimWhitespace`: drop leading whitespace bytes. -/
def LeftTrimWhitespace (orig : List Nat) : List Nat :=
  orig.dropWhile IsWhitespace

/-- `RightTrimWhitespace`: drop trailing whitespace bytes. -/
def RightTrimWhitespace (orig : List Nat) : List Nat :=
  (orig.reverse.dropWhile IsWhitespace).reverse

/-- `TrimWhitespace`: trim both ends (left-trim of the right-trim). -/
def TrimWhitespace (orig : List Nat) : List Nat :=
  LeftTrimWhitespace (RightTrimWhitespace orig)

/-! ## Tag Dictionary

Modelled from the spec (§3, §4.1; the `TagList` class header is not under
`src/`): an ordered name→value mapping. `set` overwrites in place or appends
a new entry at the end; `exists` tests key membership; `remove` deletes a
key; the merge-append used by the tag parser appends `"\n" + value` to an
existing entry's value. Names and values are byte lists. -/

/-- The Tag Dictionary: an insertion-ordered list of (name, value) pairs. -/
abbrev TagList := List (List Nat × List Nat)

/-- Modelled from the spec (§4.1): `exists(name)`. -/
def tagExists (tags : TagList) (name : List Nat) : Bool :=
  tags.any fun p => p.1 = name

/-- Modelled from the spec (§4.1): `set(name, value)` — idempotent
overwrite of the first entry with that name, else insertion at the end. -/
def tagSet : TagList → List Nat → List Nat → TagList
  | [], name, value => [(name, value)]
  | (k, w) :: rest, name, value =>
    if k = name then (k, value) :: rest
    else (k, w) :: tagSet rest name value

/-- Modelled from the spec (§4.1): `remove(name)`. -/
def tagRemove (tags : TagList) (name : List Nat) : TagList :=
  tags.filter fun p => ¬(p.1 = name)

/-- Look up the value stored under `name`, if any. -/
def tagGet : TagList → List Nat → Option (List Nat)
  | [], _ => none
  | (k, w) :: rest, name => if k = name then some w else tagGet rest name

/-- The merge-append update `tags[name] += "\n" + value` used by the
tag-block parser on an existing name: the first entry with that name has
a 0x0A byte and then `value` appended to its stored value. -/
def tagAppendNL : TagList → List Nat → List Nat → TagList
  | [], name, value => [(name, value)]
  | (k, w) :: rest, name, value =>
    if k = name then (k, w ++ 10 :: value) :: rest
    else (k, w) :: tagAppendNL rest name value

/-! ## Error taxonomy (§7) -/

/-- Errors raised by the codec and readers: `sizeError` is the C++
`std::range_error("File is too small.")` / a cursor range failure,
`formatError` the `std::runtime_error` thrown on magic, version or type-tag
mismatches. -/
inductive PSFError where
  | sizeError
  | formatError
deriving DecidableEq

instance {α : Type} [DecidableEq α] : DecidableEq (Except PSFError α) := fun a b =>
  match a, b with
  | .error e, .error f => if h : e = f then .isTrue (by rw [h]) else .isFalse (by simp [h])
  | .ok x, .ok y => if h : x = y then .isTrue (by rw [h]) else .isFalse (by simp [h])
  | .error _, .ok _ => .isFalse (by simp)
  | .ok _, .error _ => .isFalse (by simp)

/-! ## `CheckForValidPSF` (NCSF.cpp lines 69–107) -/

/-- A byte read back through a C++ `char` (signed on the reference
platforms): values ≥ 128 become negative. The version-byte comparison
`PSFHeader[3] != versionByte` compares this signed char against the
zero-extended `uint8_t` argument. -/
def signedChar (b : Nat) : Int :=
  if b < 128 then (b : Int) else (b : Int) - 256

/-- `CheckForValidPSF(file, versionByte)`: staged size checks (4 bytes, then
16 bytes, then the reserved/program thresholds, each computed in `uint32_t`
arithmetic, i.e. `mod 2^32`), magic check `PSF`, and version-byte check.
Returns `.ok ()` when the buffer passes all checks. -/
def CheckForValidPSF (data : List Nat) (versionByte : Nat) : Except PSFError Unit :=
  if data.length < 4 then .error .sizeError
  else if ¬(data.getD 0 0 = 80 ∧ data.getD 1 0 = 83 ∧ data.getD 2 0 = 70) then
    .error .formatError
  else if ¬(signedChar (data.getD 3 0) = (versionByte : Int)) then .error .formatError
  else if data.length < 16 then .error .sizeError
  else
    let reservedSize := ReadLE32At data 4
    let programCompressedSize := ReadLE32At data 8
    if reservedSize ≠ 0 ∧ data.length < (reservedSize + 16) % 2^32 then .error .sizeError
    else if programCompressedSize ≠ 0 ∧
        data.length < (reservedSize + programCompressedSize + 16) % 2^32 then
      .error .sizeError
    else .ok ()

/-! ## zlib model (§6 external compression dependency)

The core only relies on deflate being a deterministic lossless coding whose
decompression into a shorter destination buffer yields a prefix of the full
stream; we model it as the identity coding, which realizes exactly those
properties. -/

/-- Model of zlib `compress2(..., 9)` on a non-empty input. -/
def zlibCompress (data : List Nat) : List Nat := data

/-- Model of the full decompressed stream of a compressed byte sequence. -/
def zlibUncompressAll (src : List Nat) : List Nat := src

/-- Model of zlib `uncompress(dest, destLen, src, srcLen)` with a destination
buffer of `destLen` value-initialized (zero) bytes: the first `destLen` bytes
of the decompressed stream, and the zero bytes of the destination that the
stream was too short to overwrite. -/
def zlibUncompressInto (destLen : Nat) (src : List Nat) : List Nat :=
  ((zlibUncompressAll src).take destLen) ++
    List.replicate (destLen - (zlibUncompressAll src).length) 0

/-- CRC-32 update of one byte (reflected polynomial 0xEDB88320), modelling
the external zlib `crc32`; the PSF read path never inspects the stored CRC. -/
def crc32UpdateByte (crc b : Nat) : Nat :=
  Nat.rec (motive := fun _ => Nat)
    ((crc ^^^ b) % 2^32)
    (fun _ c => if c % 2 = 1 then (c / 2) ^^^ 0xEDB88320 else c / 2)
    8

/-- CRC-32 of a byte sequence (zlib `crc32(crc32(0, Z_NULL, 0), data, len)`). -/
def crc32Of (data : List Nat) : Nat :=
  (data.foldl crc32UpdateByte (2^32 - 1)) ^^^ (2^32 - 1)

/-! ## `MakeNCSF` (NCSF.cpp lines 16–65) -/

/-- `MakeNCSF(filename, reservedSectionData, programSectionData, tags)`: the
byte sequence written to the output file — magic `PSF`, version byte 0x25,
reserved-section length, compressed-program length, CRC-32 of the compressed
bytes (0 when there is no program section), the reserved bytes, the
compressed program bytes, and, when tag lines were supplied, the `[TAG]`
marker followed by each tag line verbatim with a 0x0A terminator. -/
def MakeNCSF (reservedSectionData programSectionData : List Nat)
    (tags : List (List Nat)) : List Nat :=
  let programCompressedData :=
    if programSectionData.isEmpty then [] else zlibCompress programSectionData
  let programCompressedSize := programCompressedData.length
  [80, 83, 70] ++ [0x25] ++
    WriteLE32 (if reservedSectionData.isEmpty then 0 else reservedSectionData.length) ++
    WriteLE32 programCompressedSize ++
    WriteLE32 (if programCompressedSize ≠ 0 then crc32Of programCompressedData else 0) ++
    reservedSectionData ++ programCompressedData ++
    (if tags.isEmpty then []
     else TagMarker ++ tags.foldr (fun t acc => t ++ 10 :: acc) [])

/-! ## `GetProgramSectionFromPSF` (NCSF.cpp lines 111–148) -/

/-- `GetProgramSectionFromPSF(file, versionByte, programHeaderSize,
programSizeOffset, addHeaderSize)`: validate, return `[]` if there is no
program section, read the compressed program bytes, decompress the first
`programHeaderSize` bytes to read the embedded uncompressed-size field at
`programSizeOffset` (optionally adding the header size), and decompress
again to that size. -/
def GetProgramSectionFromPSF (data : List Nat) (versionByte : Nat)
    (programHeaderSize programSizeOffset : Nat) (addHeaderSize : Bool) :
    Except PSFError (List Nat) :=
  match CheckForValidPSF data versionByte with
  | .error e => .error e
  | .ok _ =>
    let reservedSize := ReadLE32At data 4
    let programCompressedSize := ReadLE32At data 8
    if programCompressedSize = 0 then .ok []
    else if data.length < 16 + reservedSize + programCompressedSize then
      .error .sizeError
    else
      let programSectionCompressed :=
        (data.drop (16 + reservedSize)).take programCompressedSize
      let headerBytes := zlibUncompressInto programHeaderSize programSectionCompressed
      let sizeField := ReadLE32At headerBytes programSizeOffset
      let programUncompressedSize :=
        if addHeaderSize then (sizeField + programHeaderSize) % 2^32 else sizeField
      .ok (zlibUncompressInto programUncompressedSize programSectionCompressed)

/-! ## `GetTagsFromPSF` (NCSF.cpp lines 179–229) -/

/-- The commit step performed when the parser meets a 0x0A byte: a record is
kept only when both the raw (untrimmed) name and value are non-empty; it is
then whitespace-trimmed and merge-appended into the dictionary. -/
def commitRecord (tags : TagList) (name value : List Nat) : TagList :=
  if ¬name.isEmpty ∧ ¬value.isEmpty then
    if tagExists tags (TrimWhitespace name) then
      tagAppendNL tags (TrimWhitespace name) (TrimWhitespace value)
    else tagSet tags (TrimWhitespace name) (TrimWhitespace value)
  else tags

/-- The per-byte tag-record loop of `GetTagsFromPSF`: 0x0A commits the
current record, `=` switches from name to value (and is itself dropped),
every other byte is appended to the side currently being built. A trailing
record with no 0x0A terminator is never committed. -/
def parseTagBytes : List Nat → TagList → List Nat → List Nat → Bool → TagList
  | [], tags, _, _, _ => tags
  | c :: rest, tags, name, value, onName =>
    if c = 10 then parseTagBytes rest (commitRecord tags name value) [] [] true
    else if c = 61 then parseTagBytes rest tags name value false
    else if onName then parseTagBytes rest tags (name ++ [c]) value onName
    else parseTagBytes rest tags name (value ++ [c]) onName

/-- `GetTagsFromPSF(file, versionByte)`: validate, locate the first
occurrence of `[TAG]` searching from offset 0, and parse every byte after
it as tag records; an absent marker yields an empty dictionary. -/
def GetTagsFromPSF (data : List Nat) (versionByte : Nat) : Except PSFError TagList :=
  match CheckForValidPSF data versionByte with
  | .error e => .error e
  | .ok _ =>
    match GetNextOffset data 0 TagMarker with
    | none => .ok []
    | some tagOffset => .ok (parseTagBytes (data.drop (tagOffset + 5)) [] [] [] true)

/-! ## Duration estimation engine (`GetTime`, NCSF.cpp lines 284–408)

The double-valued elapsed time is modelled as a rational; the C++
`static_cast<int>` cast (truncation toward zero) and `std::ceil` are
modelled exactly on rationals. The watchdog-supervised probe
(`GetTime(TimerPlayer*, loopCount, numberOfLoops)`, a thread/mutex
protocol) is the out-of-core interpreter boundary (§6): the engine model is
parameterized by a probe oracle mapping a probe configuration to the `Time`
verdict that probe returns, with `⟨-1, LOOP⟩` as the undetermined verdict
the watchdog substitutes on poll-budget exhaustion. -/

/-- Classification half of a probe verdict (`END` = reached natural end,
`LOOP` = hit loop or watchdog timeout). -/
inductive TimeType where
  | END
  | LOOP
deriving DecidableEq

/-- A probe verdict: elapsed seconds (or the -1 sentinel) and
classification. -/
structure Time where
  time : ℚ
  type : TimeType
deriving DecidableEq

/-- Truncation toward zero, the C++ `static_cast<int>` on a double. -/
def truncQ (q : ℚ) : Int :=
  if 0 ≤ q.num then q.num / (q.den : Int) else -((-q.num) / (q.den : Int))

/-- The C++ `std::ceil` on a double, exactly: the least integer ≥ `q`. -/
def ceilQ (q : ℚ) : Int := -((-q.num) / (q.den : Int))

/-- Modelled from the spec (`stringify`, not under `src/`): decimal ASCII
digits of a number. -/
def stringify (n : Nat) : List Nat := (Nat.toDigits 10 n).map Char.toNat

/-- Modelled from the spec (`SecondsToString`, not under `src/`): §8's
`"0:13"`-style duration text — minutes, a colon, then the seconds
zero-padded to two digits. -/
def SecondsToString (s : Int) : List Nat :=
  stringify (s.toNat / 60) ++
    58 :: (if s.toNat % 60 < 10 then 48 :: stringify (s.toNat % 60)
           else stringify (s.toNat % 60))

/-- Configuration of one watchdog-supervised probe pass: the bounded poll
count passed to the inner `GetTime`, whether notes are played
(`player->doNotes`), and the wall-clock ceiling (`player->maxSeconds`). -/
structure ProbeCall where
  loopCount : Nat
  doNotes : Bool
  maxSeconds : ℚ
deriving DecidableEq

/-- Result of the outer `GetTime`: the updated Tag Dictionary, the final
verdict, the `gotLength` flag, and the probe passes that were run. -/
structure GetTimeResult where
  tags : TagList
  final : Time
  gotLength : Bool
  calls : List ProbeCall
deriving DecidableEq

/-- The tag-derivation epilogue of `GetTime` (lines 385–408): on a
determined verdict, set `fade` to the loop constant for a `LOOP`
classification and the one-shot constant otherwise, raise a time whose
integer cast is 0 to 1 second, and set `length` to the ceiling of the
elapsed time rendered as a duration string; on an undetermined verdict,
remove the `fade` and `length` tags — but only inside the `verbose`
branch. -/
def applyTagPolicy (length : Time) (verbose : Bool) (fadeLoop fadeOneShot : Nat)
    (tags : TagList) : TagList :=
  if truncQ length.time ≠ -1 then
    let tags1 := tagSet tags fadeName
      (if length.type = .LOOP then stringify fadeLoop else stringify fadeOneShot)
    let adjusted := if truncQ length.time = 0 then (1 : ℚ) else length.time
    tagSet tags1 lengthName (SecondsToString (ceilQ adjusted))
  else if verbose then
    tagRemove (tagRemove tags fadeName) lengthName
  else tags

/-- The pass structure of the outer `GetTime` (lines 356–408), parameterized
by the probe oracle: pass 1 runs silently with poll bound 20 and a
6000-second ceiling; iff its verdict is determined (`(int)time != -1`) with
classification `END`, pass 2 runs audibly with poll bound 40 and ceiling
`pass-1 elapsed + 30`; an undetermined pass 2 falls back to the pass-1
verdict. The epilogue then derives the tags. -/
def GetTime (probe : ProbeCall → Time) (verbose : Bool)
    (fadeLoop fadeOneShot : Nat) (tags : TagList) : GetTimeResult :=
  let pass1 : ProbeCall := ⟨20, false, 6000⟩
  let length := probe pass1
  if truncQ length.time ≠ -1 ∧ length.type = .END then
    let pass2 : ProbeCall := ⟨40, true, length.time + 30⟩
    let length2 := probe pass2
    if truncQ length2.time ≠ -1 then
      ⟨applyTagPolicy length2 verbose fadeLoop fadeOneShot tags, length2, true,
        [pass1, pass2]⟩
    else
      ⟨applyTagPolicy length verbose fadeLoop fadeOneShot tags, length, false,
        [pass1, pass2]⟩
  else
    ⟨applyTagPolicy length verbose fadeLoop fadeOneShot tags, length, false, [pass1]⟩

/-! ## SSEQ reader (`SSEQ::Read`, SSEQ.cpp lines 34–49) -/

/-- A read cursor: an immutable byte buffer with a mutable position
(§4.2; the `PseudoReadFile` header is not under `src/`, its read primitives
are modelled from the spec: every read advances the position by the decoded
width and fails with a range error if it would exceed the buffer). -/
structure PseudoReadFile where
  data : List Nat
  pos : Nat
deriving DecidableEq

/-- Read `n` raw bytes at the cursor, advancing it; range error if the read
would exceed the buffer. -/
def ReadBytes (f : PseudoReadFile) (n : Nat) :
    Except PSFError (List Nat × PseudoReadFile) :=
  if f.pos + n ≤ f.data.length then
    .ok ((f.data.drop f.pos).take n, ⟨f.data, f.pos + n⟩)
  else .error .sizeError

/-- Read a little-endian `uint32_t` at the cursor. -/
def ReadLE32 (f : PseudoReadFile) : Except PSFError (Nat × PseudoReadFile) :=
  match ReadBytes f 4 with
  | .error e => .error e
  | .ok (_, f1) => .ok (ReadLE32At f.data f.pos, f1)

/-- ASCII bytes of the SSEQ sub-file type tag. -/
def SSEQTag : List Nat := [83, 83, 69, 81]

/-- ASCII bytes of the data-section type tag `DATA`. -/
def DATATag : List Nat := [68, 65, 84, 65]

/-- Modelled from the spec (§4.3; `NDSStdHeader.h` is not under `src/`):
the Standard Sub-Header shared by all DS archive sub-files — a 4-byte type
tag, the 4-byte magic, the declared file size, the header size and the
block count. -/
structure NDSStdHeader where
  type : List Nat
  magic : Nat
  fileSize : Nat
  size : Nat
  blocks : Nat

/-- Modelled from the spec (§4.3): read the 16-byte Standard Sub-Header —
the 4-byte type tag, the 32-bit magic, the 32-bit declared file size and the
16-bit header-size and block-count fields, failing with a range error when
fewer than 16 bytes remain. -/
def NDSStdHeaderRead (f : PseudoReadFile) :
    Except PSFError (NDSStdHeader × PseudoReadFile) :=
  if f.pos + 16 ≤ f.data.length then
    .ok (⟨(f.data.drop f.pos).take 4, ReadLE32At f.data (f.pos + 4),
      ReadLE32At f.data (f.pos + 8), ReadLE16At f.data (f.pos + 12),
      ReadLE16At f.data (f.pos + 14)⟩, ⟨f.data, f.pos + 16⟩)
  else .error .sizeError

/-- Modelled from the spec (§4.3): `NDSStdHeader::Verify` — a mismatch of
the type tag or magic against the expected values is a hard structural
error. -/
def NDSStdHeaderVerify (h : NDSStdHeader) (ty : List Nat) (magic : Nat) :
    Except PSFError Unit :=
  if h.type = ty ∧ h.magic = magic then .ok () else .error .formatError

/-- `SSEQ::Read(file)`: read and verify the standard sub-header
(tag `SSEQ`, magic 0x0100FEFF), read the data-section type tag and fail
with a structural error unless it is `DATA`, read the declared section size
and data offset, and read `size - 12` payload bytes (in `uint32_t`
arithmetic) starting at `startOfSSEQ + dataOffset`. Returns the payload. -/
def SSEQRead (f : PseudoReadFile) : Except PSFError (List Nat × PseudoReadFile) :=
  let startOfSSEQ := f.pos
  match NDSStdHeaderRead f with
  | .error e => .error e
  | .ok (header, f1) =>
    match NDSStdHeaderVerify header SSEQTag 0x0100FEFF with
    | .error e => .error e
    | .ok _ =>
      match ReadBytes f1 4 with
      | .error e => .error e
      | .ok (ty, f2) =>
        if ¬(ty = DATATag) then .error .formatError
        else
          match ReadLE32 f2 with
          | .error e => .error e
          | .ok (size, f3) =>
            match ReadLE32 f3 with
            | .error e => .error e
            | .ok (dataOffset, f4) =>
              ReadBytes ⟨f4.data, startOfSSEQ + dataOffset⟩ ((size + 2^32 - 12) % 2^32)

/-! ## Concrete fixtures -/

/-- A minimal valid PSF buffer whose tag block holds the single record
`" =x\n"` — a record whose name is one whitespace byte (0x20). -/
def bufWsName : List Nat :=
  [80, 83, 70, 0x25] ++ List.replicate 12 0 ++ TagMarker ++ [32, 61, 120, 10]

/-- A 16-byte buffer with reserved-size field 0xFFFFFFFF and program-size
field 0: the 32-bit threshold `R + 16` wraps around to 15. -/
def bufWrap : List Nat :=
  [80, 83, 70, 0x25, 255, 255, 255, 255, 0, 0, 0, 0, 0, 0, 0, 0]

/-- A minimal valid PSF buffer whose tag block is `"A=1\nA=2\n"`. -/
def bufDup : List Nat :=
  [80, 83, 70, 0x25] ++ List.replicate 12 0 ++ TagMarker ++
    [65, 61, 49, 10, 65, 61, 50, 10]

/-- A PSF buffer whose 9-byte reserved section itself begins with `[TAG]`
(followed by the bytes `x=y\n`), with a genuine tag block `[TAG]A=1\n`
after the sections. -/
def bufEarlyMarker : List Nat :=
  [80, 83, 70, 0x25] ++ WriteLE32 9 ++ WriteLE32 0 ++ WriteLE32 0 ++
    (TagMarker ++ [120, 61, 121, 10]) ++ (TagMarker ++ [65, 61, 49, 10])

/-- A well-formed SSEQ sub-file: standard sub-header (tag `SSEQ`, magic
0x0100FEFF, file size 30, header size 16, 1 block), `DATA` section of
declared size 14 with data offset 28, and a 2-byte payload `[9, 9]`. -/
def bufSseq : List Nat :=
  SSEQTag ++ [255, 254, 0, 1] ++ WriteLE32 30 ++ [16, 0] ++ [1, 0] ++
    DATATag ++ WriteLE32 14 ++ WriteLE32 28 ++ [9, 9]

/-- The same sub-file with the data-section tag corrupted to `DATX`. -/
def bufSseqBadTag : List Nat :=
  SSEQTag ++ [255, 254, 0, 1] ++ WriteLE32 30 ++ [16, 0] ++ [1, 0] ++
    [68, 65, 84, 88] ++ WriteLE32 14 ++ WriteLE32 28 ++ [9, 9]

/-- A probe oracle whose every pass exhausts the watchdog budget: the
undetermined verdict `⟨-1, LOOP⟩`. -/
def probeUndet : ProbeCall → Time := fun _ => ⟨-1, .LOOP⟩

/-- A probe oracle for a one-shot track: the silent pass returns 5 seconds
with classification `END`; the audible pass exhausts the watchdog budget. -/
def probeOneShot : ProbeCall → Time := fun c =>
  if c.doNotes then ⟨-1, .END⟩ else ⟨5, .END⟩

/-- A pre-populated Tag Dictionary holding `length` and `fade` entries. -/
def tagsPre : TagList := [(lengthName, [48]), (fadeName, [49])]

/-- A probe oracle for a looping track: every pass returns 7 seconds with
classification `LOOP`. -/
def probeLoop : ProbeCall → Time := fun _ => ⟨7, .LOOP⟩

/-! ## Helper lemmas -/

theorem getD_take (l : List Nat) (i n : Nat) (h : i < n) :
    (l.take n).getD i 0 = l.getD i 0 := by
  simp [List.getD, List.getElem?_take, h]

theorem getD_drop (l : List Nat) (i n : Nat) :
    (l.drop n).getD i 0 = l.getD (n + i) 0 := by
  simp [List.getD, List.getElem?_drop]

theorem ReadLE32At_drop (data : List Nat) (off : Nat) :
    ReadLE32At data off = ReadLE32At (data.drop off) 0 := by
  simp [ReadLE32At, getD_drop]

theorem ReadLE32At_take (data : List Nat) (off n : Nat) (h : off + 4 ≤ n) :
    ReadLE32At (data.take n) off = ReadLE32At data off := by
  unfold ReadLE32At
  rw [getD_take _ _ _ (by omega : off < n), getD_take _ _ _ (by omega : off + 1 < n),
    getD_take _ _ _ (by omega : off + 2 < n), getD_take _ _ _ (by omega : off + 3 < n)]

theorem WriteLE32_length (n : Nat) : (WriteLE32 n).length = 4 := by
  simp [WriteLE32]

theorem ReadLE32At_WriteLE32 (n : Nat) (rest : List Nat) :
    ReadLE32At (WriteLE32 n ++ rest) 0 = n % 2^32 := by
  show n % 2^8 + 2^8 * (n / 2^8 % 2^8) + 2^16 * (n / 2^16 % 2^8) +
      2^24 * (n / 2^24 % 2^8) = n % 2^32
  have h2 := Nat.div_add_mod (n / 2^8) (2^8)
  have h3 := Nat.div_add_mod (n / 2^16) (2^8)
  have h4 := Nat.div_add_mod (n / 2^24) (2^8)
  have h1 := Nat.div_add_mod n (2^8)
  have h5 := Nat.div_add_mod n (2^32)
  have e1 : n / 2^8 / 2^8 = n / 2^16 := by
    rw [Nat.div_div_eq_div_mul]; norm_num
  have e2 : n / 2^16 / 2^8 = n / 2^24 := by
    rw [Nat.div_div_eq_div_mul]; norm_num
  have e3 : n / 2^24 / 2^8 = n / 2^32 := by
    rw [Nat.div_div_eq_div_mul]; norm_num
  have m1 : n % 2^8 < 2^8 := Nat.mod_lt _ (by norm_num)
  have m2 : n / 2^8 % 2^8 < 2^8 := Nat.mod_lt _ (by norm_num)
  have m3 : n / 2^16 % 2^8 < 2^8 := Nat.mod_lt _ (by norm_num)
  have m4 : n / 2^24 % 2^8 < 2^8 := Nat.mod_lt _ (by norm_num)
  have m5 : n % 2^32 < 2^32 := Nat.mod_lt _ (by norm_num)
  rw [e1] at h2
  rw [e2] at h3
  rw [e3] at h4
  norm_num at *
  omega

theorem ReadLE32At_append (l1 l2 : List Nat) (k : Nat) :
    ReadLE32At (l1 ++ l2) (l1.length + k) = ReadLE32At l2 k := by
  rw [ReadLE32At_drop, ← List.drop_drop, List.drop_left, ← ReadLE32At_drop]

/-! ### Tag Dictionary lemmas -/

theorem tagGet_tagSet_self (tags : TagList) (name value : List Nat) :
    tagGet (tagSet tags name value) name = some value := by
  induction tags with
  | nil => simp [tagSet, tagGet]
  | cons p rest ih =>
    obtain ⟨k, w⟩ := p
    by_cases h : k = name
    · simp [tagSet, tagGet, h]
    · simp [tagSet, tagGet, h, ih]

theorem tagGet_tagSet_ne (tags : TagList) (name value other : List Nat)
    (h : other ≠ name) :
    tagGet (tagSet tags name value) other = tagGet tags other := by
  induction tags with
  | nil => simp [tagSet, tagGet, Ne.symm h]
  | cons p rest ih =>
    obtain ⟨k, w⟩ := p
    by_cases hk : k = name
    · subst hk
      simp [tagSet, tagGet, Ne.symm h]
    · by_cases ho : k = other <;> simp [tagSet, tagGet, hk, ho, ih, h]

theorem tagGet_tagRemove_self (tags : TagList) (name : List Nat) :
    tagGet (tagRemove tags name) name = none := by
  induction tags with
  | nil => simp [tagRemove, tagGet]
  | cons p rest ih =>
    obtain ⟨k, w⟩ := p
    by_cases h : k = name <;> simp [tagRemove, tagGet, h] <;>
      simpa [tagRemove] using ih

/-! ### Rational floor/ceiling lemmas -/

theorem ceilQ_eq_ceil (q : ℚ) : ceilQ q = ⌈q⌉ := by
  have h : (⌈q⌉ : ℤ) = -⌊-q⌋ := by rw [Int.floor_neg]; ring
  rw [h, Rat.floor_def]
  simp [ceilQ]

theorem truncQ_eq_floor_of_nonneg (q : ℚ) (h : 0 ≤ q) : truncQ q = ⌊q⌋ := by
  rw [truncQ, if_pos (Rat.num_nonneg.mpr h), Rat.floor_def]

theorem ceilQ_adjust (q : ℚ) (h : 0 ≤ q) :
    ceilQ (if truncQ q = 0 then (1 : ℚ) else q) = max 1 (ceilQ q) := by
  rw [truncQ_eq_floor_of_nonneg q h]
  by_cases h0 : ⌊q⌋ = 0
  · have hq1 : q < 1 := by
      have hlt := Int.lt_floor_add_one q
      rw [h0] at hlt
      norm_num at hlt
      exact hlt
    have hceil : ⌈q⌉ ≤ 1 := Int.ceil_le.mpr (by exact_mod_cast hq1.le)
    rw [if_pos h0, ceilQ_eq_ceil, ceilQ_eq_ceil]
    have h1 : ⌈(1 : ℚ)⌉ = 1 := by norm_num
    rw [h1]
    omega
  · have hfl : 1 ≤ ⌊q⌋ := by
      have : 0 ≤ ⌊q⌋ := Int.floor_nonneg.mpr h
      omega
    have hq1 : (1 : ℚ) ≤ q := by exact_mod_cast Int.le_floor.mp hfl
    have hceil : 1 ≤ ⌈q⌉ := by
      have h2 := Int.le_ceil q
      exact_mod_cast hq1.trans h2
    rw [if_neg h0, ceilQ_eq_ceil]
    omega

/-! ### Parser invariant helpers -/

theorem mem_TrimWhitespace (a : Nat) (l : List Nat) (h : a ∈ TrimWhitespace l) :
    a ∈ l := by
  unfold TrimWhitespace LeftTrimWhitespace RightTrimWhitespace at h
  have h1 := (List.dropWhile_sublist (l := (l.reverse.dropWhile IsWhitespace).reverse)
    (p := IsWhitespace)).subset h
  have h2 := List.mem_reverse.mp h1
  exact List.mem_reverse.mp ((List.dropWhile_sublist (p := IsWhitespace)).subset h2)

theorem tagSet_mem (tags : TagList) (name value : List Nat)
    (p : List Nat × List Nat) (h : p ∈ tagSet tags name value) :
    p ∈ tags ∨ p = (name, value) := by
  induction tags with
  | nil => simpa [tagSet] using h
  | cons q rest ih =>
    obtain ⟨k, w⟩ := q
    by_cases hk : k = name
    · rw [tagSet, if_pos hk] at h
      rcases List.mem_cons.mp h with h | h
      · right; rw [h, hk]
      · left; exact List.mem_cons_of_mem _ h
    · rw [tagSet, if_neg hk] at h
      rcases List.mem_cons.mp h with h | h
      · left; rw [h]; exact List.mem_cons_self _ _
      · rcases ih h with h | h
        · left; exact List.mem_cons_of_mem _ h
        · right; exact h

theorem tagAppendNL_no_eq_byte (tags : TagList) (name value : List Nat)
    (hinv : ∀ p ∈ tags, 61 ∉ p.1 ∧ 61 ∉ p.2) (hn : 61 ∉ name) (hv : 61 ∉ value) :
    ∀ p ∈ tagAppendNL tags name value, 61 ∉ p.1 ∧ 61 ∉ p.2 := by
  induction tags with
  | nil =>
    intro p hp
    rw [tagAppendNL] at hp
    rcases List.mem_cons.mp hp with h | h
    · rw [h]; exact ⟨hn, hv⟩
    · simp at h
  | cons q rest ih =>
    obtain ⟨k, w⟩ := q
    have hk61 : 61 ∉ k := (hinv (k, w) (List.mem_cons_self _ _)).1
    have hw61 : 61 ∉ w := (hinv (k, w) (List.mem_cons_self _ _)).2
    intro p hp
    by_cases hk : k = name
    · rw [tagAppendNL, if_pos hk] at hp
      rcases List.mem_cons.mp hp with h | h
      · rw [h]
        refine ⟨hk61, ?_⟩
        intro hmem
        rcases List.mem_append.mp hmem with h2 | h2
        · exact hw61 h2
        · rcases List.mem_cons.mp h2 with h3 | h3
          · omega
          · exact hv h3
      · exact hinv p (List.mem_cons_of_mem _ h)
    · rw [tagAppendNL, if_neg hk] at hp
      rcases List.mem_cons.mp hp with h | h
      · rw [h]; exact ⟨hk61, hw61⟩
      · exact ih (fun q hq => hinv q (List.mem_cons_of_mem _ hq)) p h

theorem commitRecord_no_eq_byte (tags : TagList) (name value : List Nat)
    (hinv : ∀ p ∈ tags, 61 ∉ p.1 ∧ 61 ∉ p.2) (hn : 61 ∉ name) (hv : 61 ∉ value) :
    ∀ p ∈ commitRecord tags name value, 61 ∉ p.1 ∧ 61 ∉ p.2 := by
  unfold commitRecord
  split
  · have hn2 : 61 ∉ TrimWhitespace name := fun hc => hn (mem_TrimWhitespace _ _ hc)
    have hv2 : 61 ∉ TrimWhitespace value := fun hc => hv (mem_TrimWhitespace _ _ hc)
    split
    · exact tagAppendNL_no_eq_byte tags _ _ hinv hn2 hv2
    · intro p hp
      rcases tagSet_mem tags _ _ p hp with h | h
      · exact hinv p h
      · rw [h]; exact ⟨hn2, hv2⟩
  · exact hinv

theorem parseTagBytes_no_eq_byte (bytes : List Nat) :
    ∀ (tags : TagList) (name value : List Nat) (onName : Bool),
      (∀ p ∈ tags, 61 ∉ p.1 ∧ 61 ∉ p.2) → 61 ∉ name → 61 ∉ value →
      ∀ p ∈ parseTagBytes bytes tags name value onName, 61 ∉ p.1 ∧ 61 ∉ p.2 := by
  induction bytes with
  | nil =>
    intro tags name value onName hinv _ _ p hp
    exact hinv p hp
  | cons c rest ih =>
    intro tags name value onName hinv hn hv p hp
    by_cases h10 : c = 10
    · rw [parseTagBytes, if_pos h10] at hp
      exact ih _ _ _ _ (commitRecord_no_eq_byte tags name value hinv hn hv)
        (by simp) (by simp) p hp
    · by_cases h61 : c = 61
      · rw [parseTagBytes, if_neg h10, if_pos h61] at hp
        exact ih _ _ _ _ hinv hn hv p hp
      · rw [parseTagBytes, if_neg h10, if_neg h61] at hp
        by_cases hon : onName
        · rw [if_pos hon] at hp
          refine ih _ _ _ _ hinv ?_ hv p hp
          intro hc
          rcases List.mem_append.mp hc with h | h
          · exact hn h
          · rcases List.mem_cons.mp h with h | h
            · exact h61 h.symm
            · simp at h
        · rw [if_neg hon] at hp
          refine ih _ _ _ _ hinv hn ?_ p hp
          intro hc
          rcases List.mem_append.mp hc with h | h
          · exact hv h
          · rcases List.mem_cons.mp h with h | h
            · exact h61 h.symm
            · simp at h

/-! ### Search-primitive least-match lemma -/

theorem GetNextOffsetGo_spec (pat : List Nat) :
    ∀ (s : List Nat) (i j : Nat), GetNextOffsetGo pat s i = some j →
      i ≤ j ∧ (s.drop (j - i)).take pat.length = pat ∧
        ∀ k, k < j - i → (s.drop k).take pat.length ≠ pat := by
  intro s
  induction s with
  | nil =>
    intro i j h
    unfold GetNextOffsetGo at h
    by_cases hp : pat = []
    · rw [if_pos hp] at h
      injection h with h
      subst h
      refine ⟨le_refl i, by simp [hp], ?_⟩
      intro k hk
      omega
    · rw [if_neg hp] at h
      exact absurd h (by simp)
  | cons c rest ih =>
    intro i j h
    unfold GetNextOffsetGo at h
    by_cases hm : ((c :: rest).take pat.length) = pat
    · rw [if_pos hm] at h
      injection h with h
      subst h
      refine ⟨le_refl i, by simpa using hm, ?_⟩
      intro k hk
      omega
    · rw [if_neg hm] at h
      obtain ⟨hij, hmatch, hmin⟩ := ih (i + 1) j h
      refine ⟨by omega, ?_, ?_⟩
      · have he : j - i = (j - (i + 1)) + 1 := by omega
        rw [he]
        simpa using hmatch
      · intro k hk
        cases k with
        | zero => simpa using hm
        | succ m =>
          have hm2 : m < j - (i + 1) := by omega
          simpa using hmin m hm2

/-! ## Claim theorems -/

/-- C2 — counterexample. The claim says a record whose name is whitespace-only
is dropped by `GetTagsFromPSF`; on the buffer whose tag block is the single
record `" =x\n"` the parser in fact inserts the entry `("", "x")` (the name
`" "` is non-empty before trimming, so the record is kept, and trimming then
reduces the key to the empty byte string). -/
theorem GetTagsFromPSF_keeps_whitespace_name :
    GetTagsFromPSF bufWsName 0x25 = .ok [([], [120])] ∧
      TrimWhitespace [32] = [] ∧ IsWhitespace 32 = true := by
  refine ⟨by decide, by decide, by decide⟩

/-- C2 — amended. A record is dropped iff its raw (untrimmed) name or value
is empty; the emptiness test precedes trimming, so a non-empty whitespace-only
name or value is trimmed (possibly to the empty string) and then inserted or
merge-appended like any other record. -/
theorem commitRecord_raw_emptiness (tags : TagList) (name value : List Nat) :
    ((name = [] ∨ value = []) → commitRecord tags name value = tags) ∧
    (name ≠ [] → value ≠ [] → tagExists tags (TrimWhitespace name) = false →
      commitRecord tags name value =
        tagSet tags (TrimWhitespace name) (TrimWhitespace value)) ∧
    (name ≠ [] → value ≠ [] → tagExists tags (TrimWhitespace name) = true →
      commitRecord tags name value =
        tagAppendNL tags (TrimWhitespace name) (TrimWhitespace value)) := by
  refine ⟨?_, ?_, ?_⟩
  · intro h
    rcases h with h | h <;> subst h <;> simp [commitRecord]
  · intro h1 h2 h3
    simp [commitRecord, List.isEmpty_iff, h1, h2, h3]
  · intro h1 h2 h3
    simp [commitRecord, List.isEmpty_iff, h1, h2, h3]

/-- C2 — amended, witness: committing the record with raw name `" "` (one
whitespace byte) and raw value `"x"` into the empty dictionary inserts the
entry under the trimmed (empty) key instead of dropping the record. -/
theorem commitRecord_raw_emptiness_witness :
    commitRecord [] [32] [120] =
        tagSet [] (TrimWhitespace [32]) (TrimWhitespace [120]) ∧
      commitRecord [] [32] [120] = [([], [120])] := by
  have h := (commitRecord_raw_emptiness [] [32] [120]).2.1
    (by decide) (by decide) (by decide)
  exact ⟨h, h.trans (by decide)⟩

/-- C6 — confirmed. On a valid buffer whose tag block is
`"A=1\nA=2\n"`, `GetTagsFromPSF` returns the dictionary in which the key
`A` maps to the single merge-appended value `"1\n2"` (bytes 49, 10, 50). -/
theorem GetTagsFromPSF_merge_append :
    GetTagsFromPSF bufDup 0x25 = .ok [([65], [49, 10, 50])] := by decide

/-- C9 — confirmed. `GetTagsFromPSF` locates the tag block via
`GetNextOffset(0, "[TAG]")`: whenever the search yields offset `off`, the
5-byte marker occurs at `off`, no earlier offset of the whole buffer
(reserved or program sections included) matches, and on a validated buffer
everything after `off + 5` is parsed as tag records. -/
theorem GetTagsFromPSF_first_marker (data : List Nat) (versionByte off : Nat)
    (hoff : GetNextOffset data 0 TagMarker = some off) :
    (data.drop off).take 5 = TagMarker ∧
    (∀ j, (data.drop j).take 5 = TagMarker → off ≤ j) ∧
    (CheckForValidPSF data versionByte = .ok () →
      GetTagsFromPSF data versionByte =
        .ok (parseTagBytes (data.drop (off + 5)) [] [] [] true)) := by
  have hgo : GetNextOffsetGo TagMarker data 0 = some off := by
    simpa [GetNextOffset] using hoff
  obtain ⟨-, hmatch, hmin⟩ := GetNextOffsetGo_spec TagMarker data 0 off hgo
  refine ⟨by simpa using hmatch, ?_, ?_⟩
  · intro j hj
    by_contra hc
    push_neg at hc
    exact hmin j (by omega) (by simpa using hj)
  · intro hchk
    simp [GetTagsFromPSF, hchk, hoff]

/-- C9 — witness: in `bufEarlyMarker` the first `[TAG]` occurrence is the one
inside the reserved section (offset 16), and the parse consumes the reserved
record `x=y` and swallows the genuine marker's bytes into a `"[TAG]A"` key. -/
theorem GetTagsFromPSF_first_marker_witness :
    GetNextOffset bufEarlyMarker 0 TagMarker = some 16 ∧
    GetTagsFromPSF bufEarlyMarker 0x25 =
      .ok [([120], [121]), ([91, 84, 65, 71, 93, 65], [49])] := by
  have h := GetTagsFromPSF_first_marker bufEarlyMarker 0x25 16 (by decide)
  exact ⟨by decide, (h.2.2 (by decide)).trans (by decide)⟩

/-- C10 — confirmed. Every `=` byte is consumed as the name/value separator:
no key and no value of a dictionary returned by `GetTagsFromPSF` ever
contains the byte 61, and concretely building a PSF with tag line `a=b=c`
and re-extracting yields `a ↦ "bc"` — the second `=` is deleted, so values
containing `=` do not round-trip. -/
theorem GetTagsFromPSF_consumes_eq (data : List Nat) (versionByte : Nat)
    (tags : TagList) :
    (GetTagsFromPSF data versionByte = .ok tags →
      ∀ p ∈ tags, 61 ∉ p.1 ∧ 61 ∉ p.2) ∧
    GetTagsFromPSF (MakeNCSF [] [] [[97, 61, 98, 61, 99]]) 0x25 =
      .ok [([97], [98, 99])] := by
  constructor
  · intro h
    unfold GetTagsFromPSF at h
    cases hchk : CheckForValidPSF data versionByte with
    | error e => rw [hchk] at h; exact absurd h (by simp)
    | ok u =>
      rw [hchk] at h
      cases hoff : GetNextOffset data 0 TagMarker with
      | none =>
        rw [hoff] at h
        injection h with h
        subst h
        intro p hp
        simp at hp
      | some off =>
        rw [hoff] at h
        injection h with h
        subst h
        exact parseTagBytes_no_eq_byte _ _ _ _ _ (by simp) (by simp) (by simp)
  · decide

/-- C10 — witness: the dictionary extracted from the file built with tag line
`a=b=c` is `a ↦ "bc"`, and neither its key nor its value contains `=`. -/
theorem GetTagsFromPSF_consumes_eq_witness :
    GetTagsFromPSF (MakeNCSF [] [] [[97, 61, 98, 61, 99]]) 0x25 =
        .ok [([97], [98, 99])] ∧
      (61 ∉ ([97] : List Nat) ∧ 61 ∉ ([98, 99] : List Nat)) := by
  have h := GetTagsFromPSF_consumes_eq (MakeNCSF [] [] [[97, 61, 98, 61, 99]])
    0x25 [([97], [98, 99])]
  exact ⟨h.2, h.1 h.2 ([97], [98, 99]) (by decide)⟩

/-! ### `MakeNCSF` structure lemmas -/

theorem getD_append_lt (l1 l2 : List Nat) (i : Nat) (h : i < l1.length) :
    (l1 ++ l2).getD i 0 = l1.getD i 0 := by
  simp [List.getD, List.getElem?_append_left h]

theorem ifEmpty_len (l : List Nat) : (if l.isEmpty then 0 else l.length) = l.length := by
  cases l <;> simp

theorem MakeNCSF_eq (reserved program : List Nat) (tags : List (List Nat)) :
    MakeNCSF reserved program tags =
      [80, 83, 70, 0x25] ++
        (WriteLE32 reserved.length ++
          (WriteLE32 program.length ++
            (WriteLE32 (if program.length ≠ 0 then crc32Of program else 0) ++
              (reserved ++
                (program ++
                  (if tags.isEmpty then []
                   else TagMarker ++
                     tags.foldr (fun t acc => t ++ 10 :: acc) [])))))) := by
  unfold MakeNCSF zlibCompress
  by_cases hr : reserved = []
  · by_cases hp : program.isEmpty
    · have hpn : program = [] := List.isEmpty_iff.mp hp
      subst hpn
      subst hr
      simp [List.append_assoc]
    · subst hr
      simp [hp, List.append_assoc]
  · by_cases hp : program.isEmpty
    · have hpn : program = [] := List.isEmpty_iff.mp hp
      subst hpn
      simp [hr, List.append_assoc]
    · simp [hp, hr, List.append_assoc]

/-- C3 — counterexample. The 16-byte buffer `bufWrap` carries the reserved
length 0xFFFFFFFF; the 32-bit threshold computation `R + 16` wraps to 15, so
validation succeeds although the buffer is far smaller than `16 + R`. -/
theorem CheckForValidPSF_wraparound :
    CheckForValidPSF bufWrap 0x25 = .ok () ∧
      ReadLE32At bufWrap 4 ≠ 0 ∧ bufWrap.length < 16 + ReadLE32At bufWrap 4 := by
  refine ⟨by decide, by decide, by decide⟩

/-- C3 — amended. `CheckForValidPSF` stages its checks exactly as claimed —
each stage's size check precedes that stage's structural check, every stage
fails with either a size error or a format error and never both, and a
3-byte buffer fails with a size error — except that the two section-size
thresholds are computed in 32-bit arithmetic, i.e. they are
`(R + 16) mod 2^32` and `(R + C + 16) mod 2^32`, and are only applied when
`R` (respectively `C`) is non-zero. -/
theorem CheckForValidPSF_stages (data : List Nat) (versionByte : Nat) :
    (data.length < 4 → CheckForValidPSF data versionByte = .error .sizeError) ∧
    (4 ≤ data.length →
      ¬(data.getD 0 0 = 80 ∧ data.getD 1 0 = 83 ∧ data.getD 2 0 = 70) →
      CheckForValidPSF data versionByte = .error .formatError) ∧
    (4 ≤ data.length →
      (data.getD 0 0 = 80 ∧ data.getD 1 0 = 83 ∧ data.getD 2 0 = 70) →
      signedChar (data.getD 3 0) ≠ (versionByte : Int) →
      CheckForValidPSF data versionByte = .error .formatError) ∧
    (4 ≤ data.length → data.length < 16 →
      (data.getD 0 0 = 80 ∧ data.getD 1 0 = 83 ∧ data.getD 2 0 = 70) →
      signedChar (data.getD 3 0) = (versionByte : Int) →
      CheckForValidPSF data versionByte = .error .sizeError) ∧
    (16 ≤ data.length →
      (data.getD 0 0 = 80 ∧ data.getD 1 0 = 83 ∧ data.getD 2 0 = 70) →
      signedChar (data.getD 3 0) = (versionByte : Int) →
      ReadLE32At data 4 ≠ 0 → data.length < (ReadLE32At data 4 + 16) % 2^32 →
      CheckForValidPSF data versionByte = .error .sizeError) ∧
    (16 ≤ data.length →
      (data.getD 0 0 = 80 ∧ data.getD 1 0 = 83 ∧ data.getD 2 0 = 70) →
      signedChar (data.getD 3 0) = (versionByte : Int) →
      ¬(ReadLE32At data 4 ≠ 0 ∧
        data.length < (ReadLE32At data 4 + 16) % 2^32) →
      ReadLE32At data 8 ≠ 0 →
      data.length < (ReadLE32At data 4 + ReadLE32At data 8 + 16) % 2^32 →
      CheckForValidPSF data versionByte = .error .sizeError) ∧
    (16 ≤ data.length →
      (data.getD 0 0 = 80 ∧ data.getD 1 0 = 83 ∧ data.getD 2 0 = 70) →
      signedChar (data.getD 3 0) = (versionByte : Int) →
      ¬(ReadLE32At data 4 ≠ 0 ∧
        data.length < (ReadLE32At data 4 + 16) % 2^32) →
      ¬(ReadLE32At data 8 ≠ 0 ∧
        data.length < (ReadLE32At data 4 + ReadLE32At data 8 + 16) % 2^32) →
      CheckForValidPSF data versionByte = .ok ()) := by
  refine ⟨?_, ?_, ?_, ?_, ?_, ?_, ?_⟩
  · intro h
    simp only [CheckForValidPSF]
    rw [if_pos h]
  · intro h1 h2
    simp only [CheckForValidPSF]
    rw [if_neg (by omega), if_pos h2]
  · intro h1 h2 h3
    simp only [CheckForValidPSF]
    rw [if_neg (by omega), if_neg (not_not_intro h2), if_pos h3]
  · intro h0 h1 h2 h3
    simp only [CheckForValidPSF]
    rw [if_neg (by omega), if_neg (not_not_intro h2), if_neg (not_not_intro h3),
      if_pos h1]
  · intro h1 h2 h3 h4 h5
    simp only [CheckForValidPSF]
    rw [if_neg (by omega), if_neg (not_not_intro h2), if_neg (not_not_intro h3),
      if_neg (by omega), if_pos ⟨h4, h5⟩]
  · intro h1 h2 h3 h4 h5 h6
    simp only [CheckForValidPSF]
    rw [if_neg (by omega), if_neg (not_not_intro h2), if_neg (not_not_intro h3),
      if_neg (by omega), if_neg h4, if_pos ⟨h5, h6⟩]
  · intro h1 h2 h3 h4 h5
    simp only [CheckForValidPSF]
    rw [if_neg (by omega), if_neg (not_not_intro h2), if_neg (not_not_intro h3),
      if_neg (by omega), if_neg h4, if_neg h5]

/-- C3 — amended, witness: a 3-byte buffer fails with a size error, not a
format error, even when its bytes do not look like `PSF`. -/
theorem CheckForValidPSF_stages_witness :
    CheckForValidPSF [1, 2, 3] 7 = .error .sizeError :=
  (CheckForValidPSF_stages [1, 2, 3] 7).1 (by decide)

/-- C4 — counterexample. Build/extract is not the identity on arbitrary
program bytes: the program `[1,0,0,0]` (whose embedded size field at offset
0 reads 1) built by `MakeNCSF` and extracted back with header size 4, size
offset 0, and no header-size addition yields `[1]`, not `[1,0,0,0]`. -/
theorem MakeNCSF_roundtrip_cex :
    GetProgramSectionFromPSF (MakeNCSF [] [1, 0, 0, 0] []) 0x25 4 0 false =
        .ok [1] ∧
      ([1] : List Nat) ≠ [1, 0, 0, 0] := by
  refine ⟨by decide, by decide⟩

/-- C4 — amended. `MakeNCSF` followed by `GetProgramSectionFromPSF` with the
matching version byte 0x25 reproduces the program bytes exactly when the
program section is absent (empty result, no error) or when the program's
embedded size field at `programSizeOffset` (plus the header size when
`addHeaderSize` is set) equals the program's true length — the format's
self-describing-size invariant the extraction relies on. -/
theorem MakeNCSF_roundtrip (reserved program : List Nat) (tags : List (List Nat))
    (programHeaderSize programSizeOffset : Nat) (addHeaderSize : Bool)
    (hsize : reserved.length + program.length + 16 < 2^32) :
    (program = [] → GetProgramSectionFromPSF (MakeNCSF reserved program tags) 0x25
        programHeaderSize programSizeOffset addHeaderSize = .ok []) ∧
    (program ≠ [] → programSizeOffset + 4 ≤ programHeaderSize →
      programHeaderSize ≤ program.length →
      ReadLE32At program programSizeOffset +
          (if addHeaderSize then programHeaderSize else 0) = program.length →
      GetProgramSectionFromPSF (MakeNCSF reserved program tags) 0x25
        programHeaderSize programSizeOffset addHeaderSize = .ok program) := by
  set M := MakeNCSF reserved program tags with hMdef
  have hM := MakeNCSF_eq reserved program tags
  rw [← hMdef] at hM
  obtain ⟨crcV, hcrc⟩ : ∃ c, (if program.length ≠ 0 then crc32Of program else 0) = c :=
    ⟨_, rfl⟩
  obtain ⟨T, hT⟩ : ∃ t,
      (if tags.isEmpty then ([] : List Nat)
       else TagMarker ++ tags.foldr (fun t acc => t ++ 10 :: acc) []) = t := ⟨_, rfl⟩
  rw [hcrc, hT] at hM
  have hdrop4 : M.drop 4 = WriteLE32 reserved.length ++ (WriteLE32 program.length ++
      (WriteLE32 crcV ++ (reserved ++ (program ++ T)))) := by
    rw [hM]; exact List.drop_left' rfl
  have hdrop8 : M.drop 8 = WriteLE32 program.length ++
      (WriteLE32 crcV ++ (reserved ++ (program ++ T))) := by
    have h : (M.drop 4).drop 4 = M.drop 8 := List.drop_drop 4 4 M
    rw [hdrop4, List.drop_left' (WriteLE32_length _)] at h
    exact h.symm
  have hdrop12 : M.drop 12 = WriteLE32 crcV ++ (reserved ++ (program ++ T)) := by
    have h : (M.drop 8).drop 4 = M.drop 12 := List.drop_drop 4 8 M
    rw [hdrop8, List.drop_left' (WriteLE32_length _)] at h
    exact h.symm
  have hdrop16 : M.drop 16 = reserved ++ (program ++ T) := by
    have h : (M.drop 12).drop 4 = M.drop 16 := List.drop_drop 4 12 M
    rw [hdrop12, List.drop_left' (WriteLE32_length _)] at h
    exact h.symm
  have hR : ReadLE32At M 4 = reserved.length := by
    rw [ReadLE32At_drop, hdrop4, ReadLE32At_WriteLE32]
    exact Nat.mod_eq_of_lt (by omega)
  have hC : ReadLE32At M 8 = program.length := by
    rw [ReadLE32At_drop, hdrop8, ReadLE32At_WriteLE32]
    exact Nat.mod_eq_of_lt (by omega)
  have hTge : 16 + reserved.length + program.length ≤ M.length := by
    rw [hM]
    simp only [List.length_append, List.length_cons, List.length_nil, WriteLE32_length]
    omega
  have hmag0 : M.getD 0 0 = 80 := by
    rw [hM, getD_append_lt _ _ _ (by norm_num)]; rfl
  have hmag1 : M.getD 1 0 = 83 := by
    rw [hM, getD_append_lt _ _ _ (by norm_num)]; rfl
  have hmag2 : M.getD 2 0 = 70 := by
    rw [hM, getD_append_lt _ _ _ (by norm_num)]; rfl
  have hmag3 : M.getD 3 0 = 0x25 := by
    rw [hM, getD_append_lt _ _ _ (by norm_num)]; rfl
  have hver : signedChar (M.getD 3 0) = ((0x25 : Nat) : Int) := by
    rw [hmag3]; decide
  have hval : CheckForValidPSF M 0x25 = .ok () := by
    simp only [CheckForValidPSF]
    rw [if_neg (by omega), if_neg (not_not_intro ⟨hmag0, hmag1, hmag2⟩),
      if_neg (not_not_intro hver), if_neg (by omega),
      if_neg (by
        rw [hR, Nat.mod_eq_of_lt (by omega : reserved.length + 16 < 2^32)]
        omega),
      if_neg (by
        rw [hR, hC,
          Nat.mod_eq_of_lt (by omega : reserved.length + program.length + 16 < 2^32)]
        omega)]
  constructor
  · intro hp
    have hp0 : program.length = 0 := by rw [hp]; rfl
    simp only [GetProgramSectionFromPSF, hval]
    rw [hC, hp0]
    simp
  · intro hp hoff hhs hdecl
    have hpne : program.length ≠ 0 := fun h0 => hp (List.length_eq_zero.mp h0)
    simp only [GetProgramSectionFromPSF, hval]
    rw [hR, hC, if_neg hpne, if_neg (by omega)]
    have hdropRes : M.drop (16 + reserved.length) = program ++ T := by
      have h := List.drop_drop reserved.length 16 M
      rw [hdrop16, List.drop_left] at h
      exact h.symm
    have hcompressed : (M.drop (16 + reserved.length)).take program.length = program := by
      rw [hdropRes]; exact List.take_left' rfl
    rw [hcompressed]
    have hheadr : zlibUncompressInto programHeaderSize program =
        program.take programHeaderSize := by
      unfold zlibUncompressInto zlibUncompressAll
      rw [Nat.sub_eq_zero_of_le hhs]
      simp
    rw [hheadr, ReadLE32At_take _ _ _ hoff]
    have hsz : (if addHeaderSize then
          (ReadLE32At program programSizeOffset + programHeaderSize) % 2^32
        else ReadLE32At program programSizeOffset) = program.length := by
      cases addHeaderSize <;> simp at hdecl ⊢ <;> omega
    rw [hsz]
    unfold zlibUncompressInto zlibUncompressAll
    simp

/-- C4 — amended, witness: a program whose leading size field declares its
own length (8) round-trips exactly through build and extract, and an empty
program section round-trips to the empty result without error. -/
theorem MakeNCSF_roundtrip_witness :
    GetProgramSectionFromPSF
        (MakeNCSF [9, 9] [8, 0, 0, 0, 5, 6, 7, 8] [[120, 61, 121]]) 0x25 4 0 false =
      .ok [8, 0, 0, 0, 5, 6, 7, 8] ∧
    GetProgramSectionFromPSF (MakeNCSF [9, 9] [] [[120, 61, 121]]) 0x25 4 0 false =
      .ok [] := by
  refine ⟨(MakeNCSF_roundtrip [9, 9] [8, 0, 0, 0, 5, 6, 7, 8] [[120, 61, 121]]
      4 0 false (by decide)).2 (by decide) (by decide) (by decide) (by decide),
    (MakeNCSF_roundtrip [9, 9] [] [[120, 61, 121]] 4 0 false (by decide)).1 rfl⟩

/-! ### Duration-engine helpers -/

theorem GetTime_tags_eq (probe : ProbeCall → Time) (verbose : Bool)
    (fadeLoop fadeOneShot : Nat) (tags : TagList) :
    (GetTime probe verbose fadeLoop fadeOneShot tags).tags =
      applyTagPolicy (GetTime probe verbose fadeLoop fadeOneShot tags).final
        verbose fadeLoop fadeOneShot tags := by
  simp only [GetTime]
  split_ifs <;> rfl

theorem applyTagPolicy_determined (t : Time) (verbose : Bool)
    (fadeLoop fadeOneShot : Nat) (tags : TagList)
    (hdet : truncQ t.time ≠ -1) (hnn : 0 ≤ t.time) :
    tagGet (applyTagPolicy t verbose fadeLoop fadeOneShot tags) lengthName =
        some (SecondsToString (max 1 (ceilQ t.time))) ∧
    tagGet (applyTagPolicy t verbose fadeLoop fadeOneShot tags) fadeName =
        some (if t.type = .LOOP then stringify fadeLoop else stringify fadeOneShot) := by
  unfold applyTagPolicy
  rw [if_pos hdet]
  constructor
  · rw [tagGet_tagSet_self, ceilQ_adjust _ hnn]
  · rw [tagGet_tagSet_ne _ _ _ _ (by decide : fadeName ≠ lengthName),
      tagGet_tagSet_self]

/-- C1 — counterexample. With verbosity off, an undetermined final verdict
(elapsed truncating to the -1 sentinel) leaves the pre-existing `length`
and `fade` entries in the Tag Dictionary untouched, contradicting the
claim's "regardless of any other engine option such as verbosity". -/
theorem GetTime_undetermined_keeps_tags_without_verbose :
    truncQ (GetTime probeUndet false 10 1 tagsPre).final.time = -1 ∧
      (GetTime probeUndet false 10 1 tagsPre).tags = tagsPre := by
  refine ⟨by decide, by decide⟩

/-- C1 — amended. When the final verdict is undetermined, the engine removes
the `fade` and `length` entries only when the `verbose` option is set; with
`verbose` unset the Tag Dictionary is returned unchanged (the removal sits
inside the verbose-only branch of `GetTime`). -/
theorem GetTime_undetermined_removal_iff_verbose (probe : ProbeCall → Time)
    (verbose : Bool) (fadeLoop fadeOneShot : Nat) (tags : TagList)
    (h : truncQ (GetTime probe verbose fadeLoop fadeOneShot tags).final.time = -1) :
    (GetTime probe verbose fadeLoop fadeOneShot tags).tags =
      if verbose then tagRemove (tagRemove tags fadeName) lengthName else tags := by
  rw [GetTime_tags_eq]
  unfold applyTagPolicy
  rw [if_neg (not_not_intro h)]

/-- C1 — amended, witness: an all-undetermined probe with `verbose` set does
remove the two pre-existing entries, emptying the dictionary. -/
theorem GetTime_undetermined_removal_iff_verbose_witness :
    (GetTime probeUndet true 10 1 tagsPre).tags =
        tagRemove (tagRemove tagsPre fadeName) lengthName ∧
      (GetTime probeUndet true 10 1 tagsPre).tags = [] := by
  have h := GetTime_undetermined_removal_iff_verbose probeUndet true 10 1 tagsPre
    (by decide)
  exact ⟨h.trans (by decide), h.trans (by decide)⟩

/-- C5 — confirmed. The audible pass is run iff the silent pass (poll bound
20) returned a determined elapsed time with classification `END`; the
audible pass uses the strictly larger poll bound 40; and when the audible
pass comes back undetermined, the silent pass's verdict is kept as the
final verdict. -/
theorem GetTime_pass_structure (probe : ProbeCall → Time) (verbose : Bool)
    (fadeLoop fadeOneShot : Nat) (tags : TagList) :
    ((GetTime probe verbose fadeLoop fadeOneShot tags).calls =
        [⟨20, false, 6000⟩,
          ⟨40, true, (probe ⟨20, false, 6000⟩).time + 30⟩] ↔
      (truncQ (probe ⟨20, false, 6000⟩).time ≠ -1 ∧
        (probe ⟨20, false, 6000⟩).type = .END)) ∧
    (¬(truncQ (probe ⟨20, false, 6000⟩).time ≠ -1 ∧
        (probe ⟨20, false, 6000⟩).type = .END) →
      (GetTime probe verbose fadeLoop fadeOneShot tags).calls = [⟨20, false, 6000⟩]) ∧
    ((truncQ (probe ⟨20, false, 6000⟩).time ≠ -1 ∧
        (probe ⟨20, false, 6000⟩).type = .END) →
      truncQ (probe ⟨40, true, (probe ⟨20, false, 6000⟩).time + 30⟩).time = -1 →
      (GetTime probe verbose fadeLoop fadeOneShot tags).final =
        probe ⟨20, false, 6000⟩) ∧
    (∀ c1 c2 : ProbeCall,
      (GetTime probe verbose fadeLoop fadeOneShot tags).calls = [c1, c2] →
      c1.loopCount = 20 ∧ c2.loopCount = 40 ∧ c1.loopCount < c2.loopCount) := by
  refine ⟨?_, ?_, ?_, ?_⟩
  · simp only [GetTime]
    split_ifs with h1 h2 <;> simp [h1]
  · intro h1
    simp only [GetTime]
    rw [if_neg h1]
  · intro h1 h2
    simp only [GetTime]
    rw [if_pos h1, if_neg (not_not_intro h2)]
  · intro c1 c2 hc
    simp only [GetTime] at hc
    split_ifs at hc with h1 h2 <;> simp at hc
    · obtain ⟨hc1, hc2⟩ := hc
      rw [← hc1, ← hc2]
      exact ⟨rfl, rfl, show (20 : Nat) < 40 by decide⟩
    · obtain ⟨hc1, hc2⟩ := hc
      rw [← hc1, ← hc2]
      exact ⟨rfl, rfl, show (20 : Nat) < 40 by decide⟩

/-- C5 — witness: for a one-shot probe whose silent pass returns 5 seconds
(`END`) and whose audible pass exhausts the watchdog, both passes are run
(silent bound 20, then audible bound 40 with ceiling 5 + 30) and the silent
pass's verdict `⟨5, END⟩` is kept as the final verdict. -/
theorem GetTime_pass_structure_witness :
    (GetTime probeOneShot false 1 2 []).calls =
        [⟨20, false, 6000⟩,
          ⟨40, true, (probeOneShot ⟨20, false, 6000⟩).time + 30⟩] ∧
      (GetTime probeOneShot false 1 2 []).final = ⟨5, TimeType.END⟩ := by
  have h := GetTime_pass_structure probeOneShot false 1 2 []
  refine ⟨h.1.mpr ⟨by decide, by decide⟩, ?_⟩
  exact (h.2.2.1 ⟨by decide, by decide⟩ (by decide)).trans (by decide)

/-- C7 — confirmed. On every determined (non-negative) final verdict the
engine stores under `length` the duration string of the elapsed seconds
rounded up with a minimum of one second (`max 1 ⌈elapsed⌉`, where `ceilQ`
is exactly the mathematical ceiling), and under `fade` the
caller-supplied loop constant iff the classification is `LOOP`, the
one-shot constant otherwise. -/
theorem GetTime_determined_tag_policy (probe : ProbeCall → Time) (verbose : Bool)
    (fadeLoop fadeOneShot : Nat) (tags : TagList)
    (hdet : truncQ (GetTime probe verbose fadeLoop fadeOneShot tags).final.time ≠ -1)
    (hnn : 0 ≤ (GetTime probe verbose fadeLoop fadeOneShot tags).final.time) :
    tagGet (GetTime probe verbose fadeLoop fadeOneShot tags).tags lengthName =
        some (SecondsToString
          (max 1 (ceilQ (GetTime probe verbose fadeLoop fadeOneShot tags).final.time))) ∧
    tagGet (GetTime probe verbose fadeLoop fadeOneShot tags).tags fadeName =
        some (if (GetTime probe verbose fadeLoop fadeOneShot tags).final.type = .LOOP
              then stringify fadeLoop else stringify fadeOneShot) ∧
    ceilQ (GetTime probe verbose fadeLoop fadeOneShot tags).final.time =
      ⌈(GetTime probe verbose fadeLoop fadeOneShot tags).final.time⌉ := by
  rw [GetTime_tags_eq]
  obtain ⟨h1, h2⟩ := applyTagPolicy_determined
    (GetTime probe verbose fadeLoop fadeOneShot tags).final verbose
    fadeLoop fadeOneShot tags hdet hnn
  exact ⟨h1, h2, ceilQ_eq_ceil _⟩

/-- C7 — witness: a one-shot verdict of 5 seconds yields `length = "0:05"`
and the one-shot fade constant; a looping verdict of 7 seconds yields the
loop fade constant. -/
theorem GetTime_determined_tag_policy_witness :
    tagGet (GetTime probeOneShot false 7 3 []).tags lengthName =
        some (SecondsToString 5) ∧
      tagGet (GetTime probeOneShot false 7 3 []).tags fadeName = some (stringify 3) ∧
      tagGet (GetTime probeLoop false 7 3 []).tags fadeName = some (stringify 7) := by
  have h1 := GetTime_determined_tag_policy probeOneShot false 7 3 [] (by decide)
    (by decide)
  have h2 := GetTime_determined_tag_policy probeLoop false 7 3 [] (by decide)
    (by decide)
  exact ⟨h1.1.trans (by decide), h1.2.1.trans (by decide), h2.2.1.trans (by decide)⟩

/-! ### SSEQ reader helpers -/

theorem SSEQRead_badsub (data : List Nat) (pos : Nat)
    (h16 : pos + 16 ≤ data.length) (hne : (data.drop pos).take 4 ≠ SSEQTag) :
    SSEQRead ⟨data, pos⟩ = .error .formatError := by
  simp only [SSEQRead, NDSStdHeaderRead, NDSStdHeaderVerify, ReadBytes, ReadLE32]
  rw [if_pos h16]
  dsimp only
  rw [if_neg (fun hx => hne hx.1)]

theorem SSEQRead_baddata (data : List Nat) (pos : Nat)
    (h20 : pos + 20 ≤ data.length) (hty : (data.drop pos).take 4 = SSEQTag)
    (hmag : ReadLE32At data (pos + 4) = 0x0100FEFF)
    (hne : (data.drop (pos + 16)).take 4 ≠ DATATag) :
    SSEQRead ⟨data, pos⟩ = .error .formatError := by
  simp only [SSEQRead, NDSStdHeaderRead, NDSStdHeaderVerify, ReadBytes, ReadLE32]
  rw [if_pos (by omega : pos + 16 ≤ data.length)]
  dsimp only
  rw [if_pos ⟨hty, hmag⟩]
  dsimp only
  rw [if_pos (by omega : pos + 16 + 4 ≤ data.length)]
  dsimp only
  rw [if_pos hne]

theorem SSEQRead_ok_inv (data : List Nat) (pos : Nat) (payload : List Nat)
    (f1 : PseudoReadFile) (h : SSEQRead ⟨data, pos⟩ = .ok (payload, f1)) :
    (data.drop (pos + 16)).take 4 = DATATag ∧
      payload = (data.drop (pos + ReadLE32At data (pos + 24))).take
        ((ReadLE32At data (pos + 20) + 2^32 - 12) % 2^32) ∧
      payload.length = (ReadLE32At data (pos + 20) + 2^32 - 12) % 2^32 := by
  simp only [SSEQRead, NDSStdHeaderRead, NDSStdHeaderVerify, ReadBytes,
    ReadLE32] at h
  split at h
  next => simp at h
  next header fA heqA =>
    split at heqA
    next h16 =>
      simp only [Except.ok.injEq, Prod.mk.injEq] at heqA
      obtain ⟨hh, hf⟩ := heqA
      subst hh
      subst hf
      dsimp only at h
      split at h
      next => simp at h
      next u heqB =>
        split at heqB
        next hver =>
          split at h
          next => simp at h
          next ty f2 heqC =>
            split at heqC
            next h20 =>
              simp only [Except.ok.injEq, Prod.mk.injEq] at heqC
              obtain ⟨hty, hf2⟩ := heqC
              subst hty
              subst hf2
              dsimp only at h
              split at h
              next hDA => simp at h
              next hDA =>
                rw [not_not] at hDA
                split at h
                next => simp at h
                next sz f3 heqD =>
                  split at heqD
                  next => simp at heqD
                  next w fB heqE =>
                    split at heqE
                    next h24 =>
                      simp only [Except.ok.injEq, Prod.mk.injEq] at heqD heqE
                      obtain ⟨hw, hfB⟩ := heqE
                      subst hw
                      subst hfB
                      obtain ⟨hsz, hf3⟩ := heqD
                      subst hsz
                      subst hf3
                      dsimp only at h
                      split at h
                      next => simp at h
                      next off f4 heqF =>
                        split at heqF
                        next => simp at heqF
                        next w2 fC heqG =>
                          split at heqG
                          next h28 =>
                            simp only [Except.ok.injEq, Prod.mk.injEq] at heqF heqG
                            obtain ⟨hw2, hfC⟩ := heqG
                            subst hw2
                            subst hfC
                            obtain ⟨hoff, hf4⟩ := heqF
                            subst hoff
                            subst hf4
                            dsimp only at h
                            split at h
                            next hfin =>
                              simp only [Except.ok.injEq, Prod.mk.injEq] at h
                              obtain ⟨hpay, hf1⟩ := h
                              have e1 : pos + 16 + 4 = pos + 20 := by omega
                              have e2 : pos + 16 + 4 + 4 = pos + 24 := by omega
                              rw [e1, e2] at hpay hfin
                              refine ⟨hDA, hpay.symm, ?_⟩
                              rw [← hpay]
                              simp only [List.length_take, List.length_drop]
                              omega
                            next => simp at h
                          next => simp at heqG
                    next => simp at heqE
            next => simp at heqC
        next => simp at heqB
    next => simp at heqA

/-- C8 — confirmed. `SSEQRead` raises a hard structural (format) error when
the standard sub-header's type tag is not `SSEQ`, and when the data
section's 4-byte type tag is not `DATA`; and every successful read returns
a payload of exactly `size - 12` bytes (declared section size, `uint32_t`
arithmetic) read from `startOfSSEQ + dataOffset`. -/
theorem SSEQRead_spec (f : PseudoReadFile) :
    (f.pos + 16 ≤ f.data.length → (f.data.drop f.pos).take 4 ≠ SSEQTag →
      SSEQRead f = .error .formatError) ∧
    (f.pos + 20 ≤ f.data.length → (f.data.drop f.pos).take 4 = SSEQTag →
      ReadLE32At f.data (f.pos + 4) = 0x0100FEFF →
      (f.data.drop (f.pos + 16)).take 4 ≠ DATATag →
      SSEQRead f = .error .formatError) ∧
    (∀ payload f1, SSEQRead f = .ok (payload, f1) →
      (f.data.drop (f.pos + 16)).take 4 = DATATag ∧
      payload = (f.data.drop (f.pos + ReadLE32At f.data (f.pos + 24))).take
        ((ReadLE32At f.data (f.pos + 20) + 2^32 - 12) % 2^32) ∧
      payload.length = (ReadLE32At f.data (f.pos + 20) + 2^32 - 12) % 2^32) := by
  obtain ⟨data, pos⟩ := f
  exact ⟨SSEQRead_badsub data pos, SSEQRead_baddata data pos,
    fun payload f1 h => SSEQRead_ok_inv data pos payload f1 h⟩

/-- C8 — witness: the well-formed sub-file `bufSseq` succeeds with the 2-byte
payload `[9, 9]` (declared size 14, so `14 - 12 = 2` bytes from offset 28),
and corrupting the data-section tag to `DATX` in `bufSseqBadTag` yields a
format error. -/
theorem SSEQRead_spec_witness :
    SSEQRead ⟨bufSseqBadTag, 0⟩ = .error .formatError ∧
      (bufSseq.drop 16).take 4 = DATATag ∧
      ([9, 9] : List Nat).length = (ReadLE32At bufSseq 20 + 2^32 - 12) % 2^32 := by
  have hbad := (SSEQRead_spec ⟨bufSseqBadTag, 0⟩).2.1 (by decide) (by decide)
    (by decide) (by decide)
  have hok := (SSEQRead_spec ⟨bufSseq, 0⟩).2.2 [9, 9] ⟨bufSseq, 30⟩ (by decide)
  exact ⟨hbad, by simpa using hok.1, by simpa using hok.2.2⟩

end NCSF
